import Mathlib

/-!
Verification development for the `hash_pass` asynchronous password-hashing
service (`src/hash_pass/main.go`, `src/hash_pass/server/server.go`).

The server keeps four pieces of shared state: a request counter `requestID`,
a result map `resultMap`, a latency accumulator `elapsedTime` and a shutdown
flag `bShutdown`.  Handlers: `doHash` (POST = submit, GET = query),
`getStats`, `doShutdown`.  Each accepted POST launches a detached goroutine
`delayAndUpdate` which, after a fixed delay, stores
`base64.URLEncoding(sha512(password))` under the decimal request id.

We embed the handlers as pure functions on an explicit state record and model
concurrency by interleaving events (one event per handler invocation, plus a
`complete` event for each goroutine finishing).  The cryptographic transform
is embedded bit-for-bit (FIPS 180-4 SHA-512 and padded URL-safe base64), so
the stored payloads are the real ones.
-/

set_option maxRecDepth 100000

namespace HashPass

/-! ## 64-bit word primitives (Go `uint64` arithmetic used by crypto/sha512) -/

def mask64 : Nat := 18446744073709551615

def add64 (a b : Nat) : Nat := (a + b) % 18446744073709551616

def rotr64 (x n : Nat) : Nat := ((x >>> n) ||| (x <<< (64 - n))) &&& mask64

def not64 (x : Nat) : Nat := x ^^^ mask64

/-! ## SHA-512 (FIPS 180-4), as computed by Go `crypto/sha512.Sum512` -/

def bsig0 (x : Nat) : Nat := rotr64 x 28 ^^^ rotr64 x 34 ^^^ rotr64 x 39

def bsig1 (x : Nat) : Nat := rotr64 x 14 ^^^ rotr64 x 18 ^^^ rotr64 x 41

def ssig0 (x : Nat) : Nat := rotr64 x 1 ^^^ rotr64 x 8 ^^^ (x >>> 7)

def ssig1 (x : Nat) : Nat := rotr64 x 19 ^^^ rotr64 x 61 ^^^ (x >>> 6)

def chFn (x y z : Nat) : Nat := (x &&& y) ^^^ (not64 x &&& z)

def majFn (x y z : Nat) : Nat := (x &&& y) ^^^ (x &&& z) ^^^ (y &&& z)

/-- The 80 SHA-512 round constants K₀…K₇₉. -/
def sha512K : List Nat := [
  4794697086780616226, 8158064640168781261, 13096744586834688815, 16840607885511220156,
  4131703408338449720, 6480981068601479193, 10538285296894168987, 12329834152419229976,
  15566598209576043074, 1334009975649890238, 2608012711638119052, 6128411473006802146,
  8268148722764581231, 9286055187155687089, 11230858885718282805, 13951009754708518548,
  16472876342353939154, 17275323862435702243, 1135362057144423861, 2597628984639134821,
  3308224258029322869, 5365058923640841347, 6679025012923562964, 8573033837759648693,
  10970295158949994411, 12119686244451234320, 12683024718118986047, 13788192230050041572,
  14330467153632333762, 15395433587784984357, 489312712824947311, 1452737877330783856,
  2861767655752347644, 3322285676063803686, 5560940570517711597, 5996557281743188959,
  7280758554555802590, 8532644243296465576, 9350256976987008742, 10552545826968843579,
  11727347734174303076, 12113106623233404929, 14000437183269869457, 14369950271660146224,
  15101387698204529176, 15463397548674623760, 17586052441742319658, 1182934255886127544,
  1847814050463011016, 2177327727835720531, 2830643537854262169, 3796741975233480872,
  4115178125766777443, 5681478168544905931, 6601373596472566643, 7507060721942968483,
  8399075790359081724, 8693463985226723168, 9568029438360202098, 10144078919501101548,
  10430055236837252648, 11840083180663258601, 13761210420658862357, 14299343276471374635,
  14566680578165727644, 15097957966210449927, 16922976911328602910, 17689382322260857208,
  500013540394364858, 748580250866718886, 1242879168328830382, 1977374033974150939,
  2944078676154940804, 3659926193048069267, 4368137639120453308, 4836135668995329356,
  5532061633213252278, 6448918945643986474, 6902733635092675308, 7801388544844847127]

/-- The SHA-512 initial hash value H⁽⁰⁾. -/
def sha512H0 : List Nat := [
  7640891576956012808, 13503953896175478587, 4354685564936845355, 11912009170470909681,
  5840696475078001361, 11170449401992604703, 2270897969802886507, 6620516959819538809]

/-- Big-endian 8-byte encoding of a 64-bit word. -/
def be8 (w : Nat) : List Nat :=
  [(w >>> 56) &&& 255, (w >>> 48) &&& 255, (w >>> 40) &&& 255, (w >>> 32) &&& 255,
   (w >>> 24) &&& 255, (w >>> 16) &&& 255, (w >>> 8) &&& 255, w &&& 255]

/-- Big-endian 16-byte encoding of the 128-bit message bit length. -/
def be16len (n : Nat) : List Nat :=
  (List.range 16).map (fun i => (n >>> (8 * (15 - i))) &&& 255)

/-- SHA-512 message padding: append `0x80`, zeros, and the 128-bit bit length,
so the total length is a multiple of 128 bytes. -/
def padMsg (msg : List Nat) : List Nat :=
  let L := msg.length
  let padLen := (128 - ((L + 17) % 128)) % 128
  msg ++ [128] ++ List.replicate padLen 0 ++ be16len (8 * L)

/-- Group bytes into big-endian 64-bit words (input length a multiple of 8). -/
def bytesToWords : List Nat → List Nat
  | b0 :: b1 :: b2 :: b3 :: b4 :: b5 :: b6 :: b7 :: rest =>
    (((((((b0 * 256 + b1) * 256 + b2) * 256 + b3) * 256 + b4) * 256 + b5) * 256
        + b6) * 256 + b7) :: bytesToWords rest
  | _ => []

/-- Split the padded message into 128-byte blocks (`fuel` bounds recursion). -/
def toBlocksAux : Nat → List Nat → List (List Nat)
  | 0, _ => []
  | _ + 1, [] => []
  | fuel + 1, l => l.take 128 :: toBlocksAux fuel (l.drop 128)

def toBlocks (l : List Nat) : List (List Nat) := toBlocksAux l.length l

/-- Extend a 16-word block to the 80-word message schedule. -/
def schedAux : Nat → List Nat → List Nat
  | 0, w => w
  | n + 1, w =>
    let t := w.length
    let nw := (ssig1 (w.getD (t - 2) 0) + w.getD (t - 7) 0 + ssig0 (w.getD (t - 15) 0)
               + w.getD (t - 16) 0) % 18446744073709551616
    schedAux n (w ++ [nw])

/-- One SHA-512 round: state is the 8-word list `[a,b,c,d,e,f,g,h]`. -/
def roundStep (st : List Nat) (kw : Nat × Nat) : List Nat :=
  match st with
  | [a, b, c, d, e, f, g, h] =>
    let t1 := (h + bsig1 e + chFn e f g + kw.1 + kw.2) % 18446744073709551616
    let t2 := (bsig0 a + majFn a b c) % 18446744073709551616
    [add64 t1 t2, a, b, c, add64 d t1, e, f, g]
  | _ => st

/-- Process one 128-byte block. -/
def compress (h : List Nat) (block : List Nat) : List Nat :=
  let w := schedAux 64 (bytesToWords block)
  let st := (sha512K.zip w).foldl roundStep h
  (h.zip st).map (fun p => add64 p.1 p.2)

/-- SHA-512 digest (64 bytes) of a byte string. -/
def sha512 (msg : List Nat) : List Nat :=
  let hfin := (toBlocks (padMsg msg)).foldl compress sha512H0
  hfin.foldr (fun wd acc => be8 wd ++ acc) []

/-! ## URL-safe base64 with padding (Go `base64.URLEncoding`) -/

def b64Alphabet : List Char :=
  "ABCDEFGHIJKLMNOPQRSTUVWXYZabcdefghijklmnopqrstuvwxyz0123456789-_".data

def b64Char (n : Nat) : Char := b64Alphabet.getD n 'A'

/-- Encode bytes in groups of three, padding the tail with `=`. -/
def b64Encode : List Nat → List Char
  | [] => []
  | [b0] => [b64Char (b0 >>> 2), b64Char ((b0 &&& 3) <<< 4), '=', '=']
  | [b0, b1] => [b64Char (b0 >>> 2), b64Char (((b0 &&& 3) <<< 4) ||| (b1 >>> 4)),
                 b64Char ((b1 &&& 15) <<< 2), '=']
  | b0 :: b1 :: b2 :: rest =>
    b64Char (b0 >>> 2) :: b64Char (((b0 &&& 3) <<< 4) ||| (b1 >>> 4)) ::
    b64Char (((b1 &&& 15) <<< 2) ||| (b2 >>> 6)) :: b64Char (b2 &&& 63) :: b64Encode rest

def base64url (bs : List Nat) : String := (b64Encode bs).asString

/-! ## Bytes of a Go string (UTF-8) and the server transform -/

def utf8Char (c : Char) : List Nat :=
  let n := c.toNat
  if n < 128 then [n]
  else if n < 2048 then [192 ||| (n >>> 6), 128 ||| (n &&& 63)]
  else if n < 65536 then
    [224 ||| (n >>> 12), 128 ||| ((n >>> 6) &&& 63), 128 ||| (n &&& 63)]
  else
    [240 ||| (n >>> 18), 128 ||| ((n >>> 12) &&& 63), 128 ||| ((n >>> 6) &&& 63),
     128 ||| (n &&& 63)]

def strBytes (s : String) : List Nat := s.data.foldr (fun c acc => utf8Char c ++ acc) []

/-- The transformation applied by `delayAndUpdate`:
`base64.URLEncoding.EncodeToString(sha512.Sum512([]byte(pword))[:])`. -/
def transform (pw : String) : String := base64url (sha512 (strBytes pw))

/-- Sanity check against a standard SHA-512 test vector (empty string). -/
example : transform "" =
    "z4PhNX7vuL3xVChQ1m2AB9Yg5AULVxXcg_SpIdNs6c5H0NE8XYXysP-DGNKHfuwvY7kxvUdBeoGlODJ6-SfaPg=="
    := by decide

/-- Sanity check against a standard SHA-512 test vector ("abc"). -/
example : transform "abc" =
    "3a81oZNherrMQXNJriBBMRLm-k6JqX6iCp7u5ktV05ohkpkqJ0_BqDa6PCOj_uu9RU1EI2Q86A4qmslPpUyknw=="
    := by decide

/-! ## Decimal formatting (Go `strconv.FormatInt(requestID, 10)`) -/

def digitChar (d : Nat) : Char := Char.ofNat (48 + d)

/-- Big-endian decimal digits of `n`; the first argument is recursion fuel,
instantiated with `n` itself. -/
def decDigits : Nat → Nat → List Nat
  | 0, _ => []
  | _ + 1, 0 => []
  | fuel + 1, n => decDigits fuel (n / 10) ++ [n % 10]

/-- Decimal string of a natural number, as produced by `strconv.FormatInt`
for non-negative values. -/
def decStr (n : Nat) : String :=
  if n = 0 then "0" else ((decDigits n n).map digitChar).asString

/-! ## Server constants (server.go) -/

def ErrInvalidId : String := "Error: Invalid task Id"

def ErrPassword : String := "Error: Missing or invalid password"

def ErrShutdown : String := "Service is shutting down, request rejected"

def MsgFarewell : String := "All requests have been processed, terminating service."

def ListenPort : Nat := 8080

/-! ## Server state

`requestID`, `resultMap`, `elapsedTime` and `bShutdown` are the four global
variables of server.go (`resultMap` as an association list, insertion order).
`pending` models the in-flight `delayAndUpdate` goroutines (id, password) that
have been launched but have not yet performed their map write; `subs` and
`lats` are history (ghost) components recording every accepted submission
(id, password) and its recorded latency — they mirror information the Go
program has already emitted and are never read by the modelled operations. -/

structure ServerState where
  requestID : Nat
  resultMap : List (String × String)
  elapsedTime : Nat
  bShutdown : Bool
  pending : List (String × String)
  subs : List (String × String)
  lats : List Nat
deriving Repr, DecidableEq

def initState : ServerState :=
  { requestID := 0, resultMap := [], elapsedTime := 0, bShutdown := false,
    pending := [], subs := [], lats := [] }

/-- HTTP-level outcome of one handler invocation. -/
inductive HResp where
  | ok (body : String)
  | badRequest (msg : String)
  | unavailable (msg : String)
  | statsResp (total average : Nat)
  | farewell
deriving Repr, DecidableEq

/-- Go map assignment `m[k] = v`: overwrite if the key is present, otherwise
append a new entry. -/
def mapSet (m : List (String × String)) (k v : String) : List (String × String) :=
  if m.any (fun p => p.1 == k) then m.map (fun p => if p.1 == k then (k, v) else p)
  else m ++ [(k, v)]

/-- Go map read `m[k]` with string values: the stored value, or the zero
value `""` when the key is absent (this is exactly what `doHash` tests with
`len(result) > 0`). -/
def lookupRes : List (String × String) → String → String
  | [], _ => ""
  | p :: t, k => if p.1 == k then p.2 else lookupRes t k

/-- The deferred goroutine `delayAndUpdate(requestId, pword)` after its sleep:
`resultMap[requestId] = base64url(sha512(pword))`. -/
def delayAndUpdate (requestId pword : String) (s : ServerState) : ServerState :=
  { s with resultMap := mapSet s.resultMap requestId (transform pword) }

/-- `doHash` on POST: reject during shutdown; reject empty password; otherwise
increment `requestID`, launch the executor, return the decimal id and add the
handler latency (in microseconds, supplied by the environment) to
`elapsedTime`. -/
def doHashPost (pw : String) (latency : Nat) (s : ServerState) : HResp × ServerState :=
  if s.bShutdown then (.unavailable ErrShutdown, s)
  else if pw.length = 0 then (.badRequest ErrPassword, s)
  else
    let n := s.requestID + 1
    let num := decStr n
    (.ok num,
      { s with requestID := n,
               pending := s.pending ++ [(num, pw)],
               elapsedTime := s.elapsedTime + latency,
               subs := s.subs ++ [(num, pw)],
               lats := s.lats ++ [latency] })

/-- `doHash` on GET `/hash/{id}`: reject during shutdown; otherwise return the
map entry when non-empty, else a bad-request error. -/
def doHashGet (id : String) (s : ServerState) : HResp × ServerState :=
  if s.bShutdown then (.unavailable ErrShutdown, s)
  else
    let result := lookupRes s.resultMap id
    if result.length > 0 then (.ok result, s)
    else (.badRequest ErrInvalidId, s)

/-- `getStats` on GET: reject during shutdown; otherwise total = `requestID`,
average = `elapsedTime / total` by integer division when total ≠ 0, else 0. -/
def getStats (s : ServerState) : HResp × ServerState :=
  if s.bShutdown then (.unavailable ErrShutdown, s)
  else
    let total := s.requestID
    let avg := if total ≠ 0 then s.elapsedTime / total else 0
    (.statsResp total avg, s)

/-! ## Interleaving semantics -/

/-- One atomic step of the system: a handler invocation, the setting of the
shutdown flag (first statement of `doShutdown`), or the completion of the
`k`-th in-flight `delayAndUpdate` goroutine. -/
inductive Event where
  | post (pw : String) (latency : Nat)
  | get (id : String)
  | stats
  | shutdown
  | complete (k : Nat)
deriving Repr, DecidableEq

def step (s : ServerState) (e : Event) : ServerState :=
  match e with
  | .post pw lat => (doHashPost pw lat s).2
  | .get id => (doHashGet id s).2
  | .stats => (getStats s).2
  | .shutdown => { s with bShutdown := true }
  | .complete k =>
    match s.pending[k]? with
    | some (id, pw) => { (delayAndUpdate id pw s) with pending := s.pending.eraseIdx k }
    | none => s

/-- The state after running a trace of events from the fresh state. -/
def run (evs : List Event) : ServerState := evs.foldl step initState

/-- The polling loop of `doShutdown`: return as soon as
`len(resultMap) == requestID`, otherwise let further events (goroutine
completions, concurrent rejected requests, …) interleave; `none` means the
supplied schedule was exhausted before the counts matched. -/
def drainLoop : List Event → ServerState → Option ServerState
  | evs, s =>
    if s.resultMap.length = s.requestID then some s
    else
      match evs with
      | [] => none
      | e :: rest => drainLoop rest (step s e)

/-- `doShutdown` (GET): set `bShutdown`, drain, then respond with the farewell
message. -/
def doShutdown (evs : List Event) (s : ServerState) : Option (HResp × ServerState) :=
  match drainLoop evs { s with bShutdown := true } with
  | some s2 => some (.farewell, s2)
  | none => none

/-- Run a sequence of POST submissions, collecting the responses. -/
def submitAll : List (String × Nat) → ServerState → List HResp × ServerState
  | [], s => ([], s)
  | (pw, lat) :: rest, s =>
    let r := doHashPost pw lat s
    let rs := submitAll rest r.2
    (r.1 :: rs.1, rs.2)

/-! ## main.go: port argument validation -/

def minPort : Nat := 1024

def maxPort : Nat := 65535

def digitVal (c : Char) : Option Nat :=
  if 48 ≤ c.toNat ∧ c.toNat ≤ 57 then some (c.toNat - 48) else none

def parseDigitsAux : List Char → Nat → Option Nat
  | [], acc => some acc
  | c :: rest, acc =>
    match digitVal c with
    | some d => parseDigitsAux rest (acc * 10 + d)
    | none => none

def parseDigits : List Char → Option Nat
  | [] => none
  | l => parseDigitsAux l 0

/-- Go `strconv.Atoi`: optional sign, at least one digit, and the value must
fit in a 64-bit signed integer (otherwise `ErrRange`, reported as an error). -/
def goAtoi (s : String) : Option Int :=
  match s.data with
  | '+' :: rest =>
    (parseDigits rest).bind
      (fun n => if n ≤ 9223372036854775807 then some (n : Int) else none)
  | '-' :: rest =>
    (parseDigits rest).bind
      (fun n => if n ≤ 9223372036854775808 then some (-(n : Int)) else none)
  | l =>
    (parseDigits l).bind
      (fun n => if n ≤ 9223372036854775807 then some (n : Int) else none)

/-- `main`: with no argument listen on `ListenPort`; with an argument, exit
(`none`) unless it parses and `minPort < port ≤ maxPort`, else listen on it. -/
def mainPort : Option String → Option Int
  | none => some (ListenPort : Nat)
  | some a =>
    match goAtoi a with
    | none => none
    | some port =>
      if port ≤ (minPort : Nat) ∨ port > (maxPort : Nat) then none else some port

/-! ## Decimal strings are injective on positive numbers -/

def valOfDigits (l : List Nat) : Nat := l.foldl (fun a d => 10 * a + d) 0

theorem valOfDigits_append (l : List Nat) (d : Nat) :
    valOfDigits (l ++ [d]) = 10 * valOfDigits l + d := by
  simp [valOfDigits, List.foldl_append]

theorem decDigits_val : ∀ fuel n, n ≤ fuel → valOfDigits (decDigits fuel n) = n := by
  intro fuel
  induction fuel with
  | zero =>
    intro n h
    have : n = 0 := by omega
    subst this
    rfl
  | succ f ih =>
    intro n h
    match n with
    | 0 => rfl
    | m + 1 =>
      have h10 : (m + 1) / 10 ≤ f := by
        have := Nat.div_lt_self (Nat.succ_pos m) (show 1 < 10 by norm_num)
        omega
      have e : decDigits (f + 1) (m + 1) = decDigits f ((m + 1) / 10) ++ [(m + 1) % 10] := by
        simp [decDigits]
      rw [e, valOfDigits_append, ih _ h10]
      omega

theorem decDigits_lt : ∀ fuel n d, d ∈ decDigits fuel n → d < 10 := by
  intro fuel
  induction fuel with
  | zero => intro n d h; simp [decDigits] at h
  | succ f ih =>
    intro n d h
    match n with
    | 0 => simp [decDigits] at h
    | m + 1 =>
      have e : decDigits (f + 1) (m + 1) = decDigits f ((m + 1) / 10) ++ [(m + 1) % 10] := by
        simp [decDigits]
      rw [e, List.mem_append] at h
      rcases h with h | h
      · exact ih _ _ h
      · simp at h
        omega

theorem digitChar_inj : ∀ a, a < 10 → ∀ b, b < 10 → digitChar a = digitChar b → a = b := by
  intro a ha b hb h
  interval_cases a <;> interval_cases b <;> revert h <;> decide

theorem map_digitChar_inj : ∀ l1 l2 : List Nat, (∀ d ∈ l1, d < 10) → (∀ d ∈ l2, d < 10) →
    l1.map digitChar = l2.map digitChar → l1 = l2 := by
  intro l1
  induction l1 with
  | nil =>
    intro l2 _ _ h
    cases l2 with
    | nil => rfl
    | cons b t2 => simp at h
  | cons a t ih =>
    intro l2 h1 h2 h
    cases l2 with
    | nil => simp at h
    | cons b t2 =>
      simp only [List.map_cons, List.cons.injEq] at h
      have hab : a = b := digitChar_inj a (h1 a (by simp)) b (h2 b (by simp)) h.1
      have ht : t = t2 :=
        ih t2 (fun d hd => h1 d (by simp [hd])) (fun d hd => h2 d (by simp [hd])) h.2
      rw [hab, ht]

theorem decStr_inj (m n : Nat) (hm : 0 < m) (hn : 0 < n) (h : decStr m = decStr n) : m = n := by
  unfold decStr at h
  rw [if_neg (by omega), if_neg (by omega)] at h
  have hd : (decDigits m m).map digitChar = (decDigits n n).map digitChar :=
    congrArg String.data h
  have hl : decDigits m m = decDigits n n :=
    map_digitChar_inj _ _ (fun d hdm => decDigits_lt m m d hdm)
      (fun d hdn => decDigits_lt n n d hdn) hd
  have hv := congrArg valOfDigits hl
  rwa [decDigits_val m m le_rfl, decDigits_val n n le_rfl] at hv

/-! ## The identifiers issued so far -/

/-- The decimal identifiers `"1" … "n"` handed out by the first `n` accepted
submissions. -/
def idsUpTo (n : Nat) : List String := (List.range n).map (fun i => decStr (i + 1))

theorem idsUpTo_succ (n : Nat) : idsUpTo (n + 1) = idsUpTo n ++ [decStr (n + 1)] := by
  simp [idsUpTo, List.range_succ]

theorem idsUpTo_nodup (n : Nat) : (idsUpTo n).Nodup := by
  apply List.Nodup.map_on _ (List.nodup_range n)
  intro x hx y hy h
  have := decStr_inj (x + 1) (y + 1) (Nat.succ_pos x) (Nat.succ_pos y) h
  omega

theorem idsUpTo_length (n : Nat) : (idsUpTo n).length = n := by simp [idsUpTo]

theorem mem_idsUpTo (i n : Nat) (h1 : 1 ≤ i) (h2 : i ≤ n) : decStr i ∈ idsUpTo n := by
  simp only [idsUpTo, List.mem_map]
  refine ⟨i - 1, by simp [List.mem_range]; omega, ?_⟩
  congr 1
  omega

/-! ## Association-list helpers -/

theorem perm_cons_eraseIdx {α : Type} : ∀ (l : List α) (k : Nat) (a : α),
    l[k]? = some a → l.Perm (a :: l.eraseIdx k) := by
  intro l
  induction l with
  | nil => intro k a h; simp at h
  | cons b t ih =>
    intro k a h
    match k with
    | 0 =>
      simp only [List.getElem?_cons_zero, Option.some.injEq] at h
      subst h
      simp [List.eraseIdx]
    | k + 1 =>
      simp only [List.getElem?_cons_succ] at h
      have hp := ih k a h
      have h1 : (b :: t).Perm (b :: (a :: t.eraseIdx k)) := hp.cons b
      have h2 : (b :: (a :: t.eraseIdx k)).Perm (a :: (b :: t.eraseIdx k)) :=
        List.Perm.swap a b _
      have h3 : (b :: t).eraseIdx (k + 1) = b :: t.eraseIdx k := by
        simp [List.eraseIdx_cons_succ]
      rw [h3]
      exact h1.trans h2

theorem map_eraseIdx {α β : Type} (f : α → β) : ∀ (l : List α) (k : Nat),
    (l.eraseIdx k).map f = (l.map f).eraseIdx k := by
  intro l
  induction l with
  | nil => intro k; simp
  | cons b t ih =>
    intro k
    match k with
    | 0 => simp [List.eraseIdx]
    | k + 1 => simp [List.eraseIdx_cons_succ, ih]

theorem nodup_keys_val_eq {β : Type} : ∀ (l : List (String × β)) (k : String) (a b : β),
    (l.map Prod.fst).Nodup → (k, a) ∈ l → (k, b) ∈ l → a = b := by
  intro l
  induction l with
  | nil => intro k a b _ ha _; simp at ha
  | cons p t ih =>
    intro k a b hnd ha hb
    simp only [List.map_cons, List.nodup_cons] at hnd
    rcases List.mem_cons.mp ha with ha1 | ha1 <;> rcases List.mem_cons.mp hb with hb1 | hb1
    · have heq : (k, a) = ((k, b) : String × β) := ha1.trans hb1.symm
      exact (Prod.ext_iff.mp heq).2
    · exfalso
      apply hnd.1
      have hk : k ∈ t.map Prod.fst := List.mem_map_of_mem Prod.fst hb1
      rw [← ha1]
      exact hk
    · exfalso
      apply hnd.1
      have hk : k ∈ t.map Prod.fst := List.mem_map_of_mem Prod.fst ha1
      rw [← hb1]
      exact hk
    · exact ih k a b hnd.2 ha1 hb1

theorem lookupRes_absent : ∀ (m : List (String × String)) (k : String),
    k ∉ m.map Prod.fst → lookupRes m k = "" := by
  intro m
  induction m with
  | nil => intro k _; rfl
  | cons p t ih =>
    intro k h
    simp only [List.map_cons, List.mem_cons, not_or] at h
    have hne : (p.1 == k) = false := by
      rw [beq_eq_false_iff_ne]
      exact fun he => h.1 he.symm
    simp only [lookupRes, hne, Bool.false_eq_true, if_false]
    exact ih k h.2

theorem lookupRes_present : ∀ (m : List (String × String)) (k v : String),
    (m.map Prod.fst).Nodup → (k, v) ∈ m → lookupRes m k = v := by
  intro m
  induction m with
  | nil => intro k v _ hv; simp at hv
  | cons p t ih =>
    intro k v hnd hv
    simp only [List.map_cons, List.nodup_cons] at hnd
    rcases List.mem_cons.mp hv with h1 | h1
    · rw [← h1]
      simp [lookupRes]
    · have hk : k ∈ t.map Prod.fst := List.mem_map_of_mem Prod.fst h1
      have hne : (p.1 == k) = false := by
        rw [beq_eq_false_iff_ne]
        intro he
        exact hnd.1 (he ▸ hk)
      simp only [lookupRes, hne, Bool.false_eq_true, if_false]
      exact ih k v hnd.2 h1

/-! ## The reachability invariant -/

/-- Invariant of every reachable server state: the registry and pending keys
together are exactly the issued identifiers `"1"…"requestID"`; each registry
value is the transform of the password submitted under that id; each pending
executor corresponds to an accepted submission; the accepted submissions carry
exactly the issued ids in order; `elapsedTime` is the sum of the recorded
latencies. -/
structure Inv (s : ServerState) : Prop where
  perm : (s.resultMap.map Prod.fst ++ s.pending.map Prod.fst).Perm (idsUpTo s.requestID)
  vals : ∀ p ∈ s.resultMap, ∃ q ∈ s.subs, p.1 = q.1 ∧ p.2 = transform q.2
  pend : ∀ p ∈ s.pending, p ∈ s.subs
  subKeys : s.subs.map Prod.fst = idsUpTo s.requestID
  elapsed : s.elapsedTime = s.lats.sum

theorem Inv.keysNodup {s : ServerState} (h : Inv s) :
    (s.resultMap.map Prod.fst ++ s.pending.map Prod.fst).Nodup :=
  h.perm.nodup_iff.mpr (idsUpTo_nodup s.requestID)

theorem Inv.resultNodup {s : ServerState} (h : Inv s) :
    (s.resultMap.map Prod.fst).Nodup :=
  (List.nodup_append.mp h.keysNodup).1

theorem Inv.subsNodup {s : ServerState} (h : Inv s) : (s.subs.map Prod.fst).Nodup := by
  rw [h.subKeys]
  exact idsUpTo_nodup s.requestID

theorem Inv.pending_not_result {s : ServerState} (h : Inv s) {id : String}
    (hp : id ∈ s.pending.map Prod.fst) : id ∉ s.resultMap.map Prod.fst :=
  fun hr => (List.nodup_append.mp h.keysNodup).2.2 hr hp

/-- GET `/hash/{id}` never modifies the state. -/
theorem doHashGet_state (id : String) (s : ServerState) : (doHashGet id s).2 = s := by
  unfold doHashGet
  cases hb : s.bShutdown <;> simp
  split <;> rfl

/-- GET `/stats` never modifies the state. -/
theorem getStats_state (s : ServerState) : (getStats s).2 = s := by
  unfold getStats
  cases hb : s.bShutdown <;> simp

/-- Every event preserves the invariant. -/
theorem inv_step (s : ServerState) (e : Event) (h : Inv s) : Inv (step s e) := by
  cases e with
  | post pw lat =>
    show Inv (doHashPost pw lat s).2
    unfold doHashPost
    cases hb : s.bShutdown with
    | true => simpa using h
    | false =>
      by_cases hpw : pw.length = 0
      · simpa [hpw] using h
      · simp only [Bool.false_eq_true, if_false, hpw, if_neg]
        refine ⟨?_, ?_, ?_, ?_, ?_⟩
        · simp only [List.map_append, List.map_cons, List.map_nil, ← List.append_assoc,
            idsUpTo_succ]
          exact h.perm.append_right _
        · intro p hp
          obtain ⟨q, hq, h1, h2⟩ := h.vals p hp
          exact ⟨q, List.mem_append_left _ hq, h1, h2⟩
        · intro p hp
          rcases List.mem_append.mp hp with h1 | h1
          · exact List.mem_append_left _ (h.pend p h1)
          · exact List.mem_append_right _ h1
        · simp only [List.map_append, List.map_cons, List.map_nil, h.subKeys, idsUpTo_succ]
        · simp only [List.sum_append, List.sum_cons, List.sum_nil, h.elapsed]
          omega
  | get id =>
    show Inv (doHashGet id s).2
    rw [doHashGet_state]
    exact h
  | stats =>
    show Inv (getStats s).2
    rw [getStats_state]
    exact h
  | shutdown => exact ⟨h.perm, h.vals, h.pend, h.subKeys, h.elapsed⟩
  | complete k =>
    show Inv (match s.pending[k]? with
      | some (id, pw) => { (delayAndUpdate id pw s) with pending := s.pending.eraseIdx k }
      | none => s)
    cases hk : s.pending[k]? with
    | none => exact h
    | some p =>
      obtain ⟨id, pw⟩ := p
      have hmem : (id, pw) ∈ s.pending := List.mem_iff_getElem?.mpr ⟨k, hk⟩
      have hidp : id ∈ s.pending.map Prod.fst := List.mem_map_of_mem Prod.fst hmem
      have hidr : id ∉ s.resultMap.map Prod.fst := h.pending_not_result hidp
      have hms : mapSet s.resultMap id (transform pw)
          = s.resultMap ++ [(id, transform pw)] := by
        unfold mapSet
        rw [if_neg]
        intro hc
        rw [List.any_eq_true] at hc
        obtain ⟨q, hq, hqe⟩ := hc
        rw [beq_iff_eq] at hqe
        exact hidr (hqe ▸ List.mem_map_of_mem Prod.fst hq)
      have hPk : (s.pending.map Prod.fst)[k]? = some id := by
        rw [List.getElem?_map, hk]
        rfl
      refine ⟨?_, ?_, ?_, ?_, ?_⟩
      · simp only [delayAndUpdate, hms, List.map_append, List.map_cons, List.map_nil,
          map_eraseIdx]
        have hpe : (s.pending.map Prod.fst).Perm
            (id :: (s.pending.map Prod.fst).eraseIdx k) :=
          perm_cons_eraseIdx _ k id hPk
        have step1 : (s.resultMap.map Prod.fst ++ [id]
              ++ (s.pending.map Prod.fst).eraseIdx k).Perm
            (s.resultMap.map Prod.fst ++ s.pending.map Prod.fst) := by
          rw [List.append_assoc]
          exact (hpe.append_left (s.resultMap.map Prod.fst)).symm
        exact step1.trans h.perm
      · intro p hp
        simp only [delayAndUpdate, hms] at hp
        rcases List.mem_append.mp hp with h1 | h1
        · exact h.vals p h1
        · simp only [List.mem_cons, List.not_mem_nil, or_false] at h1
          subst h1
          exact ⟨(id, pw), h.pend _ hmem, rfl, rfl⟩
      · intro p hp
        exact h.pend p (List.eraseIdx_subset _ _ hp)
      · exact h.subKeys
      · exact h.elapsed

theorem inv_init : Inv initState := by
  refine ⟨?_, ?_, ?_, ?_, ?_⟩ <;> simp [initState, idsUpTo]

theorem inv_foldl (s : ServerState) (evs : List Event) (h : Inv s) :
    Inv (evs.foldl step s) := by
  induction evs generalizing s with
  | nil => exact h
  | cons e rest ih => exact ih _ (inv_step s e h)

/-- Every reachable state satisfies the invariant. -/
theorem inv_run (evs : List Event) : Inv (run evs) := inv_foldl _ _ inv_init

/-! ## Length of the stored payloads -/

theorem roundStep_length (st : List Nat) (kw : Nat × Nat) (h : st.length = 8) :
    (roundStep st kw).length = 8 := by
  unfold roundStep
  split
  · rfl
  · exact h

theorem foldl_roundStep_length (l : List (Nat × Nat)) : ∀ st : List Nat, st.length = 8 →
    (l.foldl roundStep st).length = 8 := by
  induction l with
  | nil => intro st h; exact h
  | cons a t ih => intro st h; exact ih _ (roundStep_length st a h)

theorem compress_length (h : List Nat) (block : List Nat) (hl : h.length = 8) :
    (compress h block).length = 8 := by
  unfold compress
  simp only [List.length_map, List.length_zip, foldl_roundStep_length _ _ hl, hl]
  simp

theorem foldl_compress_length (bs : List (List Nat)) : ∀ h : List Nat, h.length = 8 →
    (bs.foldl compress h).length = 8 := by
  induction bs with
  | nil => intro h hl; exact hl
  | cons b t ih => intro h hl; exact ih _ (compress_length h b hl)

theorem foldr_be8_length : ∀ l : List Nat,
    (l.foldr (fun wd acc => be8 wd ++ acc) []).length = 8 * l.length := by
  intro l
  induction l with
  | nil => rfl
  | cons a t ih =>
    simp only [List.foldr_cons, List.length_append, List.length_cons, ih]
    have h8 : (be8 a).length = 8 := rfl
    rw [h8]
    omega

/-- A SHA-512 digest is always 64 bytes. -/
theorem sha512_length (msg : List Nat) : (sha512 msg).length = 64 := by
  unfold sha512
  rw [foldr_be8_length, foldl_compress_length _ _ (show sha512H0.length = 8 from rfl)]

theorem b64Encode_length : ∀ bs : List Nat, (b64Encode bs).length = 4 * ((bs.length + 2) / 3)
  | [] => rfl
  | [b0] => by simp [b64Encode]
  | [b0, b1] => by simp [b64Encode]
  | b0 :: b1 :: b2 :: rest => by
    have ih := b64Encode_length rest
    simp only [b64Encode, List.length_cons]
    omega

/-- The stored payload is always 88 characters (base64 of 64 bytes, padded). -/
theorem transform_length (pw : String) : (transform pw).length = 88 := by
  show (b64Encode (sha512 (strBytes pw))).length = 88
  rw [b64Encode_length, sha512_length]

theorem transform_ne_empty (pw : String) : transform pw ≠ "" := by
  intro h
  have hl := transform_length pw
  rw [h] at hl
  simp [String.length] at hl

/-! ## Dynamics: preservation and the shutdown freeze -/

/-- No event ever removes or changes an entry of `resultMap`. -/
theorem step_preserves_result (s : ServerState) (e : Event) (h : Inv s)
    {p : String × String} (hp : p ∈ s.resultMap) : p ∈ (step s e).resultMap := by
  cases e with
  | post pw lat =>
    show p ∈ (doHashPost pw lat s).2.resultMap
    unfold doHashPost
    cases hb : s.bShutdown
    · by_cases hpw : pw.length = 0 <;> simp [hpw, hp]
    · simpa using hp
  | get id =>
    show p ∈ (doHashGet id s).2.resultMap
    rw [doHashGet_state]
    exact hp
  | stats =>
    show p ∈ (getStats s).2.resultMap
    rw [getStats_state]
    exact hp
  | shutdown => exact hp
  | complete k =>
    show p ∈ (match s.pending[k]? with
      | some (id, pw) => { (delayAndUpdate id pw s) with pending := s.pending.eraseIdx k }
      | none => s).resultMap
    cases hk : s.pending[k]? with
    | none => exact hp
    | some q =>
      obtain ⟨id, pw⟩ := q
      have hmem : (id, pw) ∈ s.pending := List.mem_iff_getElem?.mpr ⟨k, hk⟩
      have hidr : id ∉ s.resultMap.map Prod.fst :=
        h.pending_not_result (List.mem_map_of_mem Prod.fst hmem)
      have hms : mapSet s.resultMap id (transform pw)
          = s.resultMap ++ [(id, transform pw)] := by
        unfold mapSet
        rw [if_neg]
        intro hc
        rw [List.any_eq_true] at hc
        obtain ⟨q, hq, hqe⟩ := hc
        rw [beq_iff_eq] at hqe
        exact hidr (hqe ▸ List.mem_map_of_mem Prod.fst hq)
      simp only [delayAndUpdate, hms]
      exact List.mem_append_left _ hp

/-- No event ever removes an accepted submission from the history. -/
theorem step_preserves_subs (s : ServerState) (e : Event)
    {q : String × String} (hq : q ∈ s.subs) : q ∈ (step s e).subs := by
  cases e with
  | post pw lat =>
    show q ∈ (doHashPost pw lat s).2.subs
    unfold doHashPost
    cases hb : s.bShutdown
    · by_cases hpw : pw.length = 0 <;> simp [hpw, hq]
    · simpa using hq
  | get id =>
    show q ∈ (doHashGet id s).2.subs
    rw [doHashGet_state]
    exact hq
  | stats =>
    show q ∈ (getStats s).2.subs
    rw [getStats_state]
    exact hq
  | shutdown => exact hq
  | complete k =>
    show q ∈ (match s.pending[k]? with
      | some (id, pw) => { (delayAndUpdate id pw s) with pending := s.pending.eraseIdx k }
      | none => s).subs
    cases hk : s.pending[k]? with
    | none => exact hq
    | some p =>
      obtain ⟨id, pw⟩ := p
      exact hq

theorem foldl_preserves_result (evs : List Event) : ∀ (s : ServerState), Inv s →
    ∀ {p : String × String}, p ∈ s.resultMap → p ∈ (evs.foldl step s).resultMap := by
  induction evs with
  | nil => intro s _ p hp; exact hp
  | cons e rest ih =>
    intro s h p hp
    exact ih _ (inv_step s e h) (step_preserves_result s e h hp)

theorem foldl_preserves_subs (evs : List Event) : ∀ (s : ServerState),
    ∀ {q : String × String}, q ∈ s.subs → q ∈ (evs.foldl step s).subs := by
  induction evs with
  | nil => intro s q hq; exact hq
  | cons e rest ih =>
    intro s q hq
    exact ih _ (step_preserves_subs s e hq)

/-- Once the shutdown flag is set, every step keeps it set and freezes the
issued-identifier count and the submission history: nothing is admitted. -/
theorem step_frozen (s : ServerState) (e : Event) (h : s.bShutdown = true) :
    (step s e).bShutdown = true ∧ (step s e).requestID = s.requestID ∧
    (step s e).subs = s.subs := by
  cases e with
  | post pw lat =>
    have hs : step s (.post pw lat) = s := by
      show (doHashPost pw lat s).2 = s
      unfold doHashPost
      rw [h]
      rfl
    rw [hs]
    exact ⟨h, rfl, rfl⟩
  | get id => rw [show step s (.get id) = s from doHashGet_state id s]; exact ⟨h, rfl, rfl⟩
  | stats => rw [show step s (.stats) = s from getStats_state s]; exact ⟨h, rfl, rfl⟩
  | shutdown => exact ⟨rfl, rfl, rfl⟩
  | complete k =>
    have hred : step s (.complete k) = (match s.pending[k]? with
        | some (id, pw) => { (delayAndUpdate id pw s) with pending := s.pending.eraseIdx k }
        | none => s) := rfl
    rw [hred]
    cases hk : s.pending[k]? with
    | none => exact ⟨h, rfl, rfl⟩
    | some p =>
      obtain ⟨id, pw⟩ := p
      exact ⟨h, rfl, rfl⟩

/-! ## The drain loop -/

/-- If the drain loop of `doShutdown` returns, the counts match in the final
state, the invariant carries over, and — when the gate was already set — the
flag and the issued count are exactly what they were at shutdown initiation. -/
theorem drainLoop_spec : ∀ (evs : List Event) (s s2 : ServerState),
    drainLoop evs s = some s2 →
    s2.resultMap.length = s2.requestID ∧
    (Inv s → Inv s2) ∧
    (s.bShutdown = true → s2.bShutdown = true ∧ s2.requestID = s.requestID) := by
  intro evs
  induction evs with
  | nil =>
    intro s s2 h
    unfold drainLoop at h
    by_cases hc : s.resultMap.length = s.requestID
    · rw [if_pos hc] at h
      cases h
      exact ⟨hc, fun hi => hi, fun hb => ⟨hb, rfl⟩⟩
    · rw [if_neg hc] at h
      exact Option.noConfusion h
  | cons e rest ih =>
    intro s s2 h
    unfold drainLoop at h
    by_cases hc : s.resultMap.length = s.requestID
    · rw [if_pos hc] at h
      cases h
      exact ⟨hc, fun hi => hi, fun hb => ⟨hb, rfl⟩⟩
    · rw [if_neg hc] at h
      obtain ⟨h1, h2, h3⟩ := ih (step s e) s2 h
      refine ⟨h1, fun hi => h2 (inv_step s e hi), fun hb => ?_⟩
      obtain ⟨hb2, hr2⟩ := h3 (step_frozen s e hb).1
      exact ⟨hb2, hr2.trans (step_frozen s e hb).2.1⟩

/-- The loop exits immediately when the counts already match. -/
theorem drainLoop_exits_when_equal (evs : List Event) (s : ServerState)
    (hc : s.resultMap.length = s.requestID) : drainLoop evs s = some s := by
  unfold drainLoop
  rw [if_pos hc]

/-- Pigeonhole: with the counts equal, every issued id `1…requestID` has a
registry entry. -/
theorem inv_drained (s : ServerState) (h : Inv s) (hc : s.resultMap.length = s.requestID) :
    ∀ i, 1 ≤ i → i ≤ s.requestID → ∃ v, (decStr i, v) ∈ s.resultMap := by
  have hlen := h.perm.length_eq
  simp only [List.length_append, List.length_map, idsUpTo_length] at hlen
  have hp0 : s.pending.map Prod.fst = [] := by
    have hl0 : (s.pending.map Prod.fst).length = 0 := by
      simp only [List.length_map]
      omega
    exact List.eq_nil_of_length_eq_zero hl0
  intro i h1 h2
  have hmem : decStr i ∈ idsUpTo s.requestID := mem_idsUpTo i _ h1 h2
  have hmem2 : decStr i ∈ s.resultMap.map Prod.fst ++ s.pending.map Prod.fst :=
    h.perm.mem_iff.mpr hmem
  rw [hp0, List.append_nil] at hmem2
  obtain ⟨p, hp, he⟩ := List.mem_map.mp hmem2
  refine ⟨p.2, ?_⟩
  have hpe : (decStr i, p.2) = p := by
    rw [← he]
  rwa [hpe]

/-! ## Claim theorems -/

/-- C1: `doShutdown` returns the farewell acknowledgment only when the drain
loop has observed `len(resultMap) == requestID`; the loop exits exactly when
the counts are equal (immediately when they already are), the issued count at
that moment is the one at shutdown initiation, and — by the write-once
registry discipline — the equality forces a registry entry for every
identifier `1 … issuedCount`. -/
theorem drain_guarantees_all_ids (evs drainEvs : List Event) (s2 : ServerState)
    (h : doShutdown drainEvs (run evs) = some (.farewell, s2)) :
    s2.resultMap.length = s2.requestID ∧
    s2.requestID = (run evs).requestID ∧
    (∀ i, 1 ≤ i → i ≤ (run evs).requestID → ∃ v, (decStr i, v) ∈ s2.resultMap) ∧
    (∀ s : ServerState, s.resultMap.length = s.requestID → drainLoop drainEvs s = some s) := by
  unfold doShutdown at h
  cases hd : drainLoop drainEvs { run evs with bShutdown := true } with
  | none => rw [hd] at h; exact Option.noConfusion h
  | some s3 =>
    rw [hd] at h
    injection h with h2
    have hs3 : s3 = s2 := congrArg Prod.snd h2
    subst hs3
    obtain ⟨hcount, hinv, hfr⟩ := drainLoop_spec drainEvs _ s3 hd
    have hInv2 : Inv s3 := hinv (inv_step (run evs) .shutdown (inv_run evs))
    have hfz := hfr rfl
    refine ⟨hcount, hfz.2, ?_, fun s hs => drainLoop_exits_when_equal drainEvs s hs⟩
    intro i h1 h2
    exact inv_drained s3 hInv2 hcount i h1 (by rw [hfz.2]; exact h2)

/-- Witness for C1: one submission, shutdown, then the executor completes; the
drained state contains an entry for id "1". -/
theorem drain_guarantees_all_ids_witness :
    ∃ v, (decStr 1, v) ∈ (run [.post "a" 0, .shutdown, .complete 0]).resultMap :=
  (drain_guarantees_all_ids [.post "a" 0] [.complete 0]
      (run [.post "a" 0, .shutdown, .complete 0]) rfl).2.2.1 1 (by decide) (by decide)

/-- C2: once the shutdown gate is set, submit, query and stats all return the
service-unavailable rejection with the state (counter, registry, stats)
completely unchanged. -/
theorem gate_rejects_all (s : ServerState) (h : s.bShutdown = true)
    (pw id : String) (lat : Nat) :
    doHashPost pw lat s = (.unavailable ErrShutdown, s) ∧
    doHashGet id s = (.unavailable ErrShutdown, s) ∧
    getStats s = (.unavailable ErrShutdown, s) := by
  unfold doHashPost doHashGet getStats
  rw [h]
  exact ⟨rfl, rfl, rfl⟩

/-- Witness for C2 on a concrete shut-down state. -/
theorem gate_rejects_all_witness :
    doHashPost "pw" 7 { initState with bShutdown := true }
      = (.unavailable ErrShutdown, { initState with bShutdown := true }) :=
  (gate_rejects_all { initState with bShutdown := true } rfl "pw" "1" 7).1

/-- The responses of a run of accepted submissions, from an arbitrary open
state: decimal ids counting up from the current counter value. -/
theorem submitAll_ids (pws : List (String × Nat)) : ∀ s : ServerState,
    s.bShutdown = false → (∀ p ∈ pws, (p.1 : String).length ≠ 0) →
    (submitAll pws s).1
      = (List.range pws.length).map (fun i => HResp.ok (decStr (s.requestID + i + 1))) := by
  induction pws with
  | nil => intro s _ _; rfl
  | cons p rest ih =>
    obtain ⟨pw, lat⟩ := p
    intro s hb hne
    have hpw : pw.length ≠ 0 := hne (pw, lat) (List.mem_cons_self _ _)
    have hpost : doHashPost pw lat s =
        (.ok (decStr (s.requestID + 1)),
         { s with requestID := s.requestID + 1,
                  pending := s.pending ++ [(decStr (s.requestID + 1), pw)],
                  elapsedTime := s.elapsedTime + lat,
                  subs := s.subs ++ [(decStr (s.requestID + 1), pw)],
                  lats := s.lats ++ [lat] }) := by
      unfold doHashPost
      rw [hb, if_neg hpw]
      rfl
    have hunf : (submitAll ((pw, lat) :: rest) s).1
        = (doHashPost pw lat s).1 :: (submitAll rest (doHashPost pw lat s).2).1 := rfl
    have ihh := ih (doHashPost pw lat s).2
      (by rw [hpost]; exact hb)
      (fun q hq => hne q (List.mem_cons_of_mem _ hq))
    rw [hunf, ihh, hpost]
    dsimp only
    rw [List.length_cons, List.range_succ_eq_map, List.map_cons, List.map_map]
    simp only [Nat.add_zero]
    congr 1
    apply List.map_congr_left
    intro i _
    simp only [Function.comp_apply]
    congr 2
    omega

/-- C3: N accepted submissions from the fresh state return exactly the decimal
strings of 1 … N, which are pairwise distinct. -/
theorem ids_one_to_N (pws : List (String × Nat))
    (h : ∀ p ∈ pws, (p.1 : String).length ≠ 0) :
    (submitAll pws initState).1
      = (List.range pws.length).map (fun i => HResp.ok (decStr (i + 1))) ∧
    ((List.range pws.length).map (fun i => decStr (i + 1))).Nodup := by
  constructor
  · have hs := submitAll_ids pws initState rfl h
    simpa [initState] using hs
  · exact idsUpTo_nodup pws.length

/-- Witness for C3: two submissions return ids "1", "2". -/
theorem ids_one_to_N_witness :
    (submitAll [("a", 3), ("b", 4)] initState).1
      = (List.range 2).map (fun i => HResp.ok (decStr (i + 1))) ∧
    ((List.range 2).map (fun i => decStr (i + 1))).Nodup :=
  ids_one_to_N [("a", 3), ("b", 4)] (by decide)

/-- C4: once the executor of an accepted submission (id, pw) has completed,
every later query of that id — after any further interleaving — returns
`transform pw`, the base64-URL encoding of the SHA-512 digest of the original
input, and leaves the state unchanged. -/
theorem completed_query_stable (evs more : List Event) (id pw : String)
    (hsub : (id, pw) ∈ (run evs).subs)
    (hdone : id ∈ (run evs).resultMap.map Prod.fst)
    (hgate : (run (evs ++ more)).bShutdown = false) :
    doHashGet id (run (evs ++ more)) = (.ok (transform pw), run (evs ++ more)) := by
  have hrun : run (evs ++ more) = more.foldl step (run evs) := by
    unfold run
    rw [List.foldl_append]
  have hinv : Inv (run (evs ++ more)) := inv_run _
  have hsub2 : (id, pw) ∈ (run (evs ++ more)).subs := by
    rw [hrun]
    exact foldl_preserves_subs more _ hsub
  obtain ⟨p, hp, hpe⟩ := List.mem_map.mp hdone
  have hp2 : p ∈ (run (evs ++ more)).resultMap := by
    rw [hrun]
    exact foldl_preserves_result more _ (inv_run evs) hp
  obtain ⟨q, hq, hq1, hq2⟩ := hinv.vals p hp2
  have hqkey : q.1 = id := by rw [← hq1, hpe]
  have hqpair : (id, q.2) = q := by rw [← hqkey]
  have hval : q.2 = pw :=
    nodup_keys_val_eq _ id q.2 pw hinv.subsNodup (hqpair ▸ hq) hsub2
  have hpfull : (id, transform pw) ∈ (run (evs ++ more)).resultMap := by
    have hv2 : p.2 = transform pw := by rw [hq2, hval]
    have hpe2 : (id, transform pw) = p := by rw [← hpe, ← hv2]
    rw [hpe2]
    exact hp2
  have hlook : lookupRes (run (evs ++ more)).resultMap id = transform pw :=
    lookupRes_present _ id (transform pw) hinv.resultNodup hpfull
  have hred : doHashGet id (run (evs ++ more))
      = (if (lookupRes (run (evs ++ more)).resultMap id).length > 0
         then (.ok (lookupRes (run (evs ++ more)).resultMap id), run (evs ++ more))
         else (.badRequest ErrInvalidId, run (evs ++ more))) := by
    unfold doHashGet
    rw [hgate]
    rfl
  rw [hred, hlook, if_pos]
  rw [transform_length]
  norm_num

/-- Witness for C4 at a concrete completed task. -/
theorem completed_query_stable_witness :
    doHashGet "1" (run ([.post "abc" 0, .complete 0] ++ []))
      = (.ok (transform "abc"), run ([.post "abc" 0, .complete 0] ++ [])) :=
  completed_query_stable [.post "abc" 0, .complete 0] [] "1" "abc"
    (by decide) (by decide) (by decide)

/-- C5: a registry entry, once present, is preserved by every further
operation, and the registry and pending-executor keys are jointly duplicate
free — each identifier has at most one executor and is written at most
once. -/
theorem registry_write_once (evs : List Event) (e : Event) (id v : String)
    (hmem : (id, v) ∈ (run evs).resultMap) :
    (id, v) ∈ (step (run evs) e).resultMap ∧
    ((run evs).resultMap.map Prod.fst ++ (run evs).pending.map Prod.fst).Nodup :=
  ⟨step_preserves_result _ e (inv_run evs) hmem, (inv_run evs).keysNodup⟩

/-- Witness for C5: the entry for id "1" survives a further event. -/
theorem registry_write_once_witness :
    ("1", transform "abc") ∈ (step (run [.post "abc" 0, .complete 0]) .stats).resultMap ∧
    ((run [.post "abc" 0, .complete 0]).resultMap.map Prod.fst
      ++ (run [.post "abc" 0, .complete 0]).pending.map Prod.fst).Nodup :=
  registry_write_once [.post "abc" 0, .complete 0] .stats "1" (transform "abc")
    (List.mem_iff_getElem?.mpr ⟨0, rfl⟩)

/-- C6: a query for an identifier with no registry entry — whether never
issued, or issued but still pending — yields one and the same bad-request
rejection, so the two cases are indistinguishable to the caller. -/
theorem query_notfound_uniform (evs : List Event) (id : String)
    (hgate : (run evs).bShutdown = false)
    (hcase : id ∉ (run evs).subs.map Prod.fst ∨ id ∈ (run evs).pending.map Prod.fst) :
    doHashGet id (run evs) = (.badRequest ErrInvalidId, run evs) := by
  have hinv := inv_run evs
  have habs : id ∉ (run evs).resultMap.map Prod.fst := by
    rcases hcase with h1 | h1
    · intro hr
      obtain ⟨p, hp, hpe⟩ := List.mem_map.mp hr
      obtain ⟨q, hq, hq1, _⟩ := hinv.vals p hp
      apply h1
      have hqi : q.1 = id := by rw [← hq1, hpe]
      exact hqi ▸ List.mem_map_of_mem Prod.fst hq
    · exact hinv.pending_not_result h1
  have hlook : lookupRes (run evs).resultMap id = "" := lookupRes_absent _ id habs
  have hred : doHashGet id (run evs)
      = (if (lookupRes (run evs).resultMap id).length > 0
         then (.ok (lookupRes (run evs).resultMap id), run evs)
         else (.badRequest ErrInvalidId, run evs)) := by
    unfold doHashGet
    rw [hgate]
    rfl
  rw [hred, hlook]
  rfl

/-- Witness for C6: id "1" is pending, id "7" was never issued; both get the
identical rejection. -/
theorem query_notfound_uniform_witness :
    doHashGet "1" (run [.post "abc" 0]) = (.badRequest ErrInvalidId, run [.post "abc" 0]) ∧
    doHashGet "7" (run [.post "abc" 0]) = (.badRequest ErrInvalidId, run [.post "abc" 0]) :=
  ⟨query_notfound_uniform [.post "abc" 0] "1" (by decide) (Or.inr (by decide)),
   query_notfound_uniform [.post "abc" 0] "7" (by decide) (Or.inl (by decide))⟩

/-- C7: stats reports total = number of accepted submissions and average =
floor of (sum of recorded latencies) / total when total is non-zero, else
0. -/
theorem stats_snapshot (evs : List Event) (hgate : (run evs).bShutdown = false) :
    getStats (run evs)
      = (.statsResp (run evs).subs.length
          (if (run evs).subs.length ≠ 0
           then (run evs).lats.sum / (run evs).subs.length else 0),
         run evs) := by
  have hinv := inv_run evs
  have htot : (run evs).requestID = (run evs).subs.length := by
    have hc := congrArg List.length hinv.subKeys
    simp only [List.length_map, idsUpTo_length] at hc
    omega
  have hred : getStats (run evs)
      = (.statsResp (run evs).requestID
          (if (run evs).requestID ≠ 0
           then (run evs).elapsedTime / (run evs).requestID else 0), run evs) := by
    unfold getStats
    rw [hgate]
    rfl
  rw [hred, htot, hinv.elapsed]

/-- Witness for C7: two submissions with latencies 10 and 20 give total 2 and
average 15. -/
theorem stats_snapshot_witness :
    getStats (run [.post "a" 10, .post "b" 20])
      = (.statsResp 2 15, run [.post "a" 10, .post "b" 20]) := by
  rw [stats_snapshot [.post "a" 10, .post "b" 20] (by decide)]
  rfl

/-- C8: an empty (or missing) password is rejected with bad-request before any
state is touched: no id, no executor, no latency. -/
theorem empty_password_rejected (s : ServerState) (pw : String) (lat : Nat)
    (hgate : s.bShutdown = false) (hpw : pw.length = 0) :
    doHashPost pw lat s = (.badRequest ErrPassword, s) := by
  unfold doHashPost
  rw [hgate, hpw]
  rfl

/-- Witness for C8 on the fresh state. -/
theorem empty_password_rejected_witness :
    doHashPost "" 5 initState = (.badRequest ErrPassword, initState) :=
  empty_password_rejected initState "" 5 rfl rfl

/-- C9: the service starts on a supplied port argument exactly when it parses
as an integer p with 1024 < p ≤ 65535; otherwise the process exits before the
server starts; with no argument it starts on the default port 8080. -/
theorem port_validation :
    (∀ a : String, ∀ p : Int,
      mainPort (some a) = some p ↔ goAtoi a = some p ∧ 1024 < p ∧ p ≤ 65535) ∧
    mainPort none = some 8080 := by
  constructor
  · intro a p
    constructor
    · intro h
      have h2 : (match goAtoi a with
          | none => none
          | some port =>
            if port ≤ ((minPort : Nat) : Int) ∨ port > ((maxPort : Nat) : Int) then none
            else some port) = some p := h
      cases hg : goAtoi a with
      | none =>
        rw [hg] at h2
        exact Option.noConfusion h2
      | some q =>
        rw [hg] at h2
        have h3 : (if q ≤ ((minPort : Nat) : Int) ∨ q > ((maxPort : Nat) : Int) then none
            else some q) = some p := h2
        by_cases hc : q ≤ ((minPort : Nat) : Int) ∨ q > ((maxPort : Nat) : Int)
        · rw [if_pos hc] at h3
          exact Option.noConfusion h3
        · rw [if_neg hc] at h3
          injection h3 with h4
          subst h4
          push_neg at hc
          refine ⟨rfl, ?_, ?_⟩
          · simpa [minPort] using hc.1
          · simpa [maxPort] using hc.2
    · rintro ⟨hg, h1, h2⟩
      show (match goAtoi a with
          | none => none
          | some port =>
            if port ≤ ((minPort : Nat) : Int) ∨ port > ((maxPort : Nat) : Int) then none
            else some port) = some p
      rw [hg]
      show (if p ≤ ((minPort : Nat) : Int) ∨ p > ((maxPort : Nat) : Int) then none
          else some p) = some p
      rw [if_neg]
      intro hcon
      rcases hcon with hcc | hcc
      · simp only [minPort, Nat.cast_ofNat] at hcc
        omega
      · simp only [maxPort, Nat.cast_ofNat] at hcc
        omega
  · rfl

/-- Witness for C9: "8081" is accepted, and concrete rejections follow from
the equivalence. -/
theorem port_validation_witness : mainPort (some "8081") = some 8081 :=
  (port_validation.1 "8081" 8081).mpr ⟨by decide, by decide, by decide⟩

/-- C10: every value stored in the registry is the 88-character base64-URL
encoding of a 64-byte SHA-512 digest — in particular non-empty — so the
emptiness test used by the query handler never misclassifies a completed entry
as not-found: the query returns the stored value. -/
theorem registry_values_wellformed (evs : List Event) (id v : String)
    (hmem : (id, v) ∈ (run evs).resultMap)
    (hgate : (run evs).bShutdown = false) :
    v.length = 88 ∧ v ≠ "" ∧ doHashGet id (run evs) = (.ok v, run evs) := by
  have hinv := inv_run evs
  obtain ⟨q, hq, hq1, hq2⟩ := hinv.vals (id, v) hmem
  have hv : v = transform q.2 := hq2
  have hlen : v.length = 88 := by
    rw [hv]
    exact transform_length q.2
  have hlook : lookupRes (run evs).resultMap id = v :=
    lookupRes_present _ id v hinv.resultNodup hmem
  refine ⟨hlen, ?_, ?_⟩
  · intro h0
    rw [h0] at hlen
    exact absurd hlen (by decide)
  · have hred : doHashGet id (run evs)
        = (if (lookupRes (run evs).resultMap id).length > 0
           then (.ok (lookupRes (run evs).resultMap id), run evs)
           else (.badRequest ErrInvalidId, run evs)) := by
      unfold doHashGet
      rw [hgate]
      rfl
    rw [hred, hlook, if_pos]
    omega

/-- Witness for C10 at a concrete completed entry. -/
theorem registry_values_wellformed_witness :
    (transform "xy").length = 88 ∧ transform "xy" ≠ "" ∧
    doHashGet "1" (run [.post "xy" 0, .complete 0])
      = (.ok (transform "xy"), run [.post "xy" 0, .complete 0]) :=
  registry_values_wellformed [.post "xy" 0, .complete 0] "1" (transform "xy")
    (List.mem_iff_getElem?.mpr ⟨0, rfl⟩) (by decide)

end HashPass
